import Mathlib

/-!
# Verification of the exa client's streaming / polling core

Shallow embedding of the streaming and long-running-operation subsystem of the
`exa-effect` client library, together with proofs settling the frozen claims
about it.

The wire level (byte chunks, lines) is modelled as `List Char`: the stateful
`TextDecoder` used by the code guarantees that the concatenation of the decoded
texts of the chunks equals the decoded text of the concatenated bytes, so a
partition of the byte stream into chunks is modelled as a partition of the
decoded character sequence into chunks.

Embedded functions (from `src/client.ts` unless noted):
* the SSE line reassembler used identically by `streamAnswer` (lines 683-685)
  and `parseSSEStream` (780-782): `buffer += decode(chunk); lines =
  buffer.split("\n"); buffer = lines.pop() || ""`;
* the per-line filter (`startsWith "data: "`, `replace(/^data:\s*/, "")`,
  `trim()`, the empty / `"[DONE]"` skip);
* `processChunk` (726-759) and the incremental consumer `streamAnswer`
  (676-723) including its end-of-stream flush (709-720);
* the blocking consumer `parseSSEStream` (761-841);
* `toExaError` and `streamFromAsyncGenerator` from the Effect wrapper
  (`src/effect.ts`);
* the `answer` streaming guard (548-560).

`JSON.parse` is a platform primitive; it is modelled as an arbitrary partial
function `parse : List Char -> Option Json` (`none` = malformed input), and the
theorems quantify over it.  JavaScript member access `x.f` throws a `TypeError`
when `x` is `null` (the only value `JSON.parse` can produce whose member
access throws), which the embedding models with `Except Unit`.
-/

/-! ## JSON values

JavaScript values produced by `JSON.parse`.  Numbers are modelled as integers
(the payloads the claims are about carry no fractional numbers). -/

inductive Json where
  | null
  | bool (b : Bool)
  | num (n : Int)
  | str (s : List Char)
  | arr (elems : List Json)
  | obj (fields : List (List Char × Json))

/-- Association-list lookup of a field of a JS object, first occurrence wins
(JS object keys are unique). -/
def lookupField : List (List Char × Json) → List Char → Option Json
  | [], _ => none
  | (k, v) :: rest, key => if k = key then some v else lookupField rest key

/-- JS member access `j.k` for a value `j` known not to be `null`:
field lookup on objects, `undefined` (`none`) on any other value. -/
def jsGetD (j : Json) (k : List Char) : Option Json :=
  match j with
  | Json.obj fs => lookupField fs k
  | _ => none

/-- JS member access `j.k` including the `TypeError` thrown when `j` is
`null` (`JSON.parse` never yields `undefined`). -/
def jsGetField (j : Json) (k : List Char) : Except Unit (Option Json) :=
  match j with
  | Json.null => Except.error ()
  | _ => Except.ok (jsGetD j k)

/-- JS truthiness of a value. -/
def jsTruthy : Json → Bool
  | Json.null => false
  | Json.bool b => b
  | Json.num n => n ≠ 0
  | Json.str s => s ≠ []
  | Json.arr _ => true
  | Json.obj _ => true

/-- JS truthiness where `none` stands for `undefined`. -/
def jsTruthyOpt : Option Json → Bool
  | none => false
  | some j => jsTruthy j

/-! ## SSE frame reassembler

`buffer += decoder.decode(value); const lines = buffer.split("\n");
buffer = lines.pop() || "";` — identical in `streamAnswer` (src/client.ts
683-685) and `parseSSEStream` (780-782). -/

/-- JS `String.prototype.split("\n")`: the list of `'\n'`-separated segments;
always non-empty, `"" ↦ [""]`. -/
def splitNl : List Char → List (List Char)
  | [] => [[]]
  | c :: rest =>
    if c = '\n' then [] :: splitNl rest
    else
      match splitNl rest with
      | [] => [[c]]
      | l :: ls => (c :: l) :: ls

/-- Last segment of a split (the JS `lines.pop() || ""` step; the split is
never empty, and popping an empty last segment also leaves `""`). -/
def lastSeg : List (List Char) → List Char
  | [] => []
  | [l] => l
  | _ :: l :: ls => lastSeg (l :: ls)

/-- One reassembler step on a decoded chunk: split the extended buffer on
newlines, emit all but the last segment, keep the last segment as the new
buffer. -/
def feedChunk (buf chunk : List Char) : List (List Char) × List Char :=
  let parts := splitNl (buf ++ chunk)
  (parts.dropLast, lastSeg parts)

/-- Run the reassembler over a whole chunk sequence, returning the complete
lines emitted (in order) and the final unterminated buffer. -/
def runReassembler (buf : List Char) : List (List Char) → List (List Char) × List Char
  | [] => ([], buf)
  | ch :: rest =>
    let fed := feedChunk buf ch
    let next := runReassembler fed.2 rest
    (fed.1 ++ next.1, next.2)

/-- Concatenation of the chunk sequence (what the transport delivered). -/
def catChunks : List (List Char) → List Char
  | [] => []
  | c :: cs => c ++ catChunks cs

/-- Prefix a segment onto the first element of a split. -/
def consFst (x : List Char) : List (List Char) → List (List Char)
  | [] => [x]
  | l :: ls => (x ++ l) :: ls

/-! ## Per-line SSE filtering

`if (!line.startsWith("data: ")) continue;`
`const jsonStr = line.replace(/^data:\s*/, "").trim();`
`if (!jsonStr || jsonStr === "[DONE]") continue;`
(identical in `streamAnswer` 688-693 and `parseSSEStream` 785-790). -/

/-- The JS whitespace class `\s` (the members that can occur in this wire
format; matched by both the `\s*` of the strip regex and `trim()`). -/
def isJsWs (c : Char) : Bool :=
  c = ' ' || c = '\t' || c = '\n' || c = '\r' || c = '\x0b' || c = '\x0c' ||
    c = ' '

/-- JS `String.prototype.trim()`. -/
def jsTrim (s : List Char) : List Char :=
  ((s.dropWhile isJsWs).reverse.dropWhile isJsWs).reverse

/-- JS `String.prototype.startsWith` on character lists. -/
def leadsWith : List Char → List Char → Bool
  | [], _ => true
  | _ :: _, [] => false
  | p :: ps, c :: cs => p = c && leadsWith ps cs

def dataMark : List Char := "data: ".toList

def doneMark : List Char := "[DONE]".toList

/-- The payload a complete line forwards to JSON parsing: `none` when the line
is skipped (no `"data: "` lead, empty payload, or the `"[DONE]"` marker);
otherwise the result of `line.replace(/^data:\s*/, "").trim()` (dropping the
five characters `data:` and the whitespace run after them, then trimming). -/
def forwardPayload (line : List Char) : Option (List Char) :=
  if leadsWith dataMark line then
    let jsonStr := jsTrim ((line.drop 5).dropWhile isJsWs)
    if jsonStr = [] ∨ jsonStr = doneMark then none else some jsonStr
  else none

/-! ## Blocking SSE consumer (`parseSSEStream`, src/client.ts 761-841) -/

/-- Modelled from the spec: `HttpStatusCode` is defined in `src/errors.ts`,
which is not under `src/`; the spec calls it "a fixed internal-error status
code" and the claims name the standard values (400, 500). -/
def HttpStatusCode.InternalServerError : Int := 500

/-- Modelled from the spec: standard HTTP Bad Request code (`src/errors.ts`
is not under `src/`). -/
def HttpStatusCode.BadRequest : Int := 400

def tagKey : List Char := "tag".toList

def dataKey : List Char := "data".toList

def errorKey : List Char := "error".toList

def messageKey : List Char := "message".toList

def completeTag : List Char := "complete".toList

def errorTag : List Char := "error".toList

def unknownErrorMsg : List Char := "Unknown error".toList

/-- Model of `chunk.error?.message` for a `chunk` that is not `null`: optional chaining
turns a `null`/missing `error` field into `undefined` without throwing. -/
def errMessageOf (chunk : Json) : Option Json :=
  match jsGetD chunk errorKey with
  | some Json.null => none
  | some ev => jsGetD ev messageKey
  | none => none

/-- Model of `x || d` for the message default (`chunk.error?.message || "Unknown
error"`): the left value is used only when truthy. -/
def jsOrDefault (o : Option Json) (d : Json) : Json :=
  match o with
  | some v => if jsTruthy v then v else d
  | none => d

/-- How one run of `parseSSEStream` settles.  The code settles at most once:
it `return`s immediately after `resolve`/`reject`, so a single outcome value
is faithful.
* `success data` — `resolve(chunk.data)` on the first `"complete"` event;
* `errorEvent msg code` — `reject(new ExaError(message,
  HttpStatusCode.InternalServerError, ...))` on the first `"error"` event;
* `protocolError code` — `reject(new ExaError("Stream ended without a
  completion event.", ...))` when the loop ends unsettled;
* `thrown` — the `catch (err) { reject(err) }` path: `chunk.tag` threw a
  `TypeError` because the parsed line was JSON `null`. -/
inductive SSEOutcome where
  | success (data : Option Json)
  | errorEvent (message : Json) (statusCode : Int)
  | protocolError (statusCode : Int)
  | thrown

/-- The `for (const line of lines) { ... switch (chunk.tag) ... }` loop of
`parseSSEStream`, over the complete lines; falling off the end is the
"stream ended without a completion event" rejection. -/
def sseLoop (parse : List Char → Option Json) : List (List Char) → SSEOutcome
  | [] => SSEOutcome.protocolError HttpStatusCode.InternalServerError
  | line :: rest =>
    match forwardPayload line with
    | none => sseLoop parse rest
    | some payload =>
      match parse payload with
      | none => sseLoop parse rest
      | some chunk =>
        match jsGetField chunk tagKey with
        | Except.error _ => SSEOutcome.thrown
        | Except.ok tagv =>
          match tagv with
          | some (Json.str t) =>
            if t = completeTag then
              SSEOutcome.success (jsGetD chunk dataKey)
            else if t = errorTag then
              SSEOutcome.errorEvent
                (jsOrDefault (errMessageOf chunk) (Json.str unknownErrorMsg))
                HttpStatusCode.InternalServerError
            else sseLoop parse rest
          | _ => sseLoop parse rest

/-- Running `parseSSEStream` on a chunked byte stream: reassemble lines, run the
switch loop.  The final buffer is never examined (the code has no flush on
this path). -/
def parseSSEModel (parse : List Char → Option Json) (cs : List (List Char)) :
    SSEOutcome :=
  sseLoop parse (runReassembler [] cs).1

/-! ## Chunk decoder (`processChunk`, src/client.ts 726-759) -/

def choicesKey : List Char := "choices".toList

def deltaKey : List Char := "delta".toList

def contentKey : List Char := "content".toList

def citationsKey : List Char := "citations".toList

def zeroKey : List Char := "0".toList

def nullLit : List Char := "null".toList

def idKey : List Char := "id".toList

def urlKey : List Char := "url".toList

def titleKey : List Char := "title".toList

def publishedDateKey : List Char := "publishedDate".toList

def authorKey : List Char := "author".toList

def textKey : List Char := "text".toList

/-- The public citation shape: each field is copied by JS member access from
the incoming element, so any of them may be `undefined`. -/
structure Citation where
  id : Option Json
  url : Option Json
  title : Option Json
  publishedDate : Option Json
  author : Option Json
  text : Option Json

/-- One `citations.map((c) => ({id: c.id, ...}))` element; member access on a
`null` element throws. -/
def toCitation : Json → Except Unit Citation
  | Json.null => Except.error ()
  | c =>
    Except.ok
      ⟨jsGetD c idKey, jsGetD c urlKey, jsGetD c titleKey,
       jsGetD c publishedDateKey, jsGetD c authorKey, jsGetD c textKey⟩

/-- Model of `Array.prototype.map`, left to right, first throw propagates. -/
def citeMap : List Json → Except Unit (List Citation)
  | [] => Except.ok []
  | c :: rest =>
    match toCitation c with
    | Except.error e => Except.error e
    | Except.ok cit =>
      match citeMap rest with
      | Except.error e => Except.error e
      | Except.ok cits => Except.ok (cit :: cits)

/-- JS index access `v[0]` on a truthy value: array head, first character of
a string, `"0"` property of an object, `undefined` otherwise. -/
def jsIndex0 (j : Json) : Option Json :=
  match j with
  | Json.arr (x :: _) => some x
  | Json.arr [] => none
  | Json.str (c :: _) => some (Json.str [c])
  | Json.str [] => none
  | Json.obj fs => lookupField fs zeroKey
  | _ => none

/-- Model of `if (chunkData.choices && chunkData.choices[0] &&
chunkData.choices[0].delta) content = chunkData.choices[0].delta.content;`
for non-`null` `chunkData` (the truthiness guards make the inner accesses
safe). -/
def contentOf (chunkData : Json) : Option Json :=
  match jsGetD chunkData choicesKey with
  | none => none
  | some choices =>
    if jsTruthy choices then
      match jsIndex0 choices with
      | none => none
      | some c0 =>
        if jsTruthy c0 then
          match jsGetD c0 deltaKey with
          | none => none
          | some delta =>
            if jsTruthy delta then jsGetD delta contentKey else none
        else none
    else none

/-- Model of `if (chunkData.citations && chunkData.citations !== "null") citations =
chunkData.citations.map(...)` for non-`null` `chunkData`: a falsy or
`"null"`-string value leaves `citations` undefined; `.map` on a truthy
non-array throws a `TypeError`. -/
def citationsOf (chunkData : Json) : Except Unit (Option (List Citation)) :=
  match jsGetD chunkData citationsKey with
  | none => Except.ok none
  | some cv =>
    if jsTruthy cv then
      match cv with
      | Json.str s => if s = nullLit then Except.ok none else Except.error ()
      | Json.arr xs =>
        match citeMap xs with
        | Except.error e => Except.error e
        | Except.ok cits => Except.ok (some cits)
      | _ => Except.error ()
    else Except.ok none

/-- The Answer Chunk: `{ content, citations }`. -/
structure AnswerChunk where
  content : Option Json
  citations : Option (List Citation)

/-- Model of `processChunk(chunkData)`: throws iff `chunkData` is `null`
(`chunkData.choices` on `null`) or the citations mapping throws. -/
def processChunk (chunkData : Json) : Except Unit AnswerChunk :=
  match chunkData with
  | Json.null => Except.error ()
  | cd =>
    match citationsOf cd with
    | Except.error e => Except.error e
    | Except.ok cits => Except.ok ⟨contentOf cd, cits⟩

/-- The yield filter `if (chunk.content || chunk.citations)`: `content` is
tested for JS truthiness; a present `citations` is an array, which is always
truthy. -/
def emitP (ch : AnswerChunk) : Bool :=
  jsTruthyOpt ch.content || ch.citations.isSome

/-! ## Incremental SSE consumer (`streamAnswer`, src/client.ts 676-723) -/

/-- Result of running the incremental consumer: either the whole emitted
sequence, or the chunks emitted before an uncaught `processChunk` throw
killed the generator (such a throw escapes the in-loop processing, which —
unlike the flush — only try/catches `JSON.parse`). -/
inductive EmitResult where
  | ok (chunks : List AnswerChunk)
  | thrown (emitted : List AnswerChunk)

def consEmit (ch : AnswerChunk) : EmitResult → EmitResult
  | EmitResult.ok l => EmitResult.ok (ch :: l)
  | EmitResult.thrown l => EmitResult.thrown (ch :: l)

/-- The in-loop line processing of `streamAnswer` (687-706) over the complete
lines. -/
def loopEmit (parse : List Char → Option Json) : List (List Char) → EmitResult
  | [] => EmitResult.ok []
  | line :: rest =>
    match forwardPayload line with
    | none => loopEmit parse rest
    | some payload =>
      match parse payload with
      | none => loopEmit parse rest
      | some chunkData =>
        match processChunk chunkData with
        | Except.error _ => EmitResult.thrown []
        | Except.ok ch =>
          if emitP ch then consEmit ch (loopEmit parse rest)
          else loopEmit parse rest

/-- The end-of-stream flush of `streamAnswer` (709-720).  The leftover buffer
goes through the same lead/strip/trim/`[DONE]` filter as a line; here the
try/catch swallows `processChunk` throws as well (`catch (e) {}`). -/
def flushEmit (parse : List Char → Option Json) (buf : List Char) :
    List AnswerChunk :=
  match forwardPayload buf with
  | none => []
  | some leftover =>
    match parse leftover with
    | none => []
    | some chunkData =>
      match processChunk chunkData with
      | Except.error _ => []
      | Except.ok ch => if emitP ch then [ch] else []

/-- Sequencing the flush after the loop: a throw in the loop escapes the
`try`, so the flush never runs after one. -/
def appendEmit : EmitResult → List AnswerChunk → EmitResult
  | EmitResult.ok l, extra => EmitResult.ok (l ++ extra)
  | EmitResult.thrown l, _ => EmitResult.thrown l

/-- Running `streamAnswer` on a chunked byte stream: reassemble, process the complete
lines, flush the final buffer once. -/
def streamAnswerRun (parse : List Char → Option Json) (cs : List (List Char)) :
    EmitResult :=
  let r := runReassembler [] cs
  appendEmit (loopEmit parse r.1) (flushEmit parse r.2)

/-- A concrete `{"tag":"complete","data":5}` payload and a parse function
recognizing exactly it. -/
def compPayload : List Char := "\x7b\"tag\":\"complete\",\"data\":5\x7d".toList

def compEvent : Json :=
  Json.obj [(tagKey, Json.str completeTag), (dataKey, Json.num 5)]

def p5 : List Char → Option Json :=
  fun s => if s = compPayload then some compEvent else none

/-! ## C1: how the blocking consumer settles -/

/-- The parsed event a complete line contributes (skipped lines and
malformed JSON contribute nothing). -/
def lineEvent (parse : List Char → Option Json) (line : List Char) :
    Option Json :=
  (forwardPayload line).bind parse

/-- The tag of an event when it is a string (`switch (chunk.tag)` only
matches string cases). -/
def tagStringOf (j : Json) : Option (List Char) :=
  match jsGetD j tagKey with
  | some (Json.str s) => some s
  | _ => none

/-- Terminal events: tag `"complete"` or `"error"`. -/
def isTerminalEv (j : Json) : Bool :=
  tagStringOf j = some completeTag || tagStringOf j = some errorTag

/-- The claim's description of the settlement: the first terminal event
decides (its `data` on `"complete"`, the `error.message`-derived rejection
on `"error"`); no terminal event means the protocol-error rejection. -/
def sseVerdict (evs : List Json) : SSEOutcome :=
  match evs.find? isTerminalEv with
  | some j =>
    if tagStringOf j = some completeTag then
      SSEOutcome.success (jsGetD j dataKey)
    else
      SSEOutcome.errorEvent
        (jsOrDefault (errMessageOf j) (Json.str unknownErrorMsg))
        HttpStatusCode.InternalServerError
  | none => SSEOutcome.protocolError HttpStatusCode.InternalServerError

/-- The three settlement shapes the claim describes. -/
def settlesPerClaim (o : SSEOutcome) : Prop :=
  (∃ d, o = SSEOutcome.success d) ∨
  (∃ m, o = SSEOutcome.errorEvent m HttpStatusCode.InternalServerError) ∨
  o = SSEOutcome.protocolError HttpStatusCode.InternalServerError

/-- A parse function recognizing exactly the payload `null`. -/
def pNull : List Char → Option Json :=
  fun s => if s = nullLit then some Json.null else none

/-! ## C4: citations `"null"` vs `[]` in the incremental consumer -/

/-- The chunks a run made observable (also those emitted before a throw). -/
def emittedOf : EmitResult → List AnswerChunk
  | EmitResult.ok l => l
  | EmitResult.thrown l => l

/-- The payload `{"citations":[]}` and a parse function recognizing it. -/
def citPayload : List Char := "\x7b\"citations\":[]\x7d".toList

def pEmptyCits : List Char → Option Json :=
  fun s =>
    if s = citPayload then some (Json.obj [(citationsKey, Json.arr [])])
    else none

/-! ## Typed errors (`ExaError`)

`src/errors.ts` is not under `src/`; the shape is fixed by its uses:
`new ExaError(message, statusCode, timestamp?, path?)`. -/

structure ExaError where
  message : String
  statusCode : Int
  timestamp : Option String := none
  path : Option String := none
deriving DecidableEq

/-! ## Generator-to-stream adapter (`streamFromAsyncGenerator`, src/effect.ts)

```
Stream.unwrapScoped(
  Effect.acquireRelease(
    Effect.sync(() => make()),
    (gen) => Effect.promise(async () => { await gen.return?.(undefined); })
  ).pipe(Effect.map((gen) => Stream.fromAsyncIterable(gen, toExaError))))
```

The Effect combinators are external library code, modelled by their
documented contracts:
* `Effect.acquireRelease` registers the release in the stream's scope; the
  scope runs it exactly once, when consumption ends — by exhaustion, early
  downstream termination (e.g. `Stream.take`), downstream failure, or scope
  teardown;
* `Stream.fromAsyncIterable` pulls `gen.next()` sequentially (one
  outstanding pull) until `done` or until downstream stops demanding;
* `Effect.promise` is for promises that never reject: a rejection is raised
  as a *defect* (unchecked failure), not as a typed error, and the code
  wraps `gen.return?.(undefined)` without any catch;
* when a scope finalizer dies, its cause is combined with the run's result:
  a typed error already propagating is retained alongside the defect, and a
  run that would otherwise succeed fails with the defect.

The generator source is modelled by the list of values it will yield; its
`return` either resolves or rejects (`releaseFails`). -/

inductive AdapterEv where
  | pull
  | release
deriving DecidableEq

/-- How the downstream consumer behaves: consume everything, stop early
after `n` values (`Stream.take n` / scope teardown), or fail after
consuming `n` values. -/
inductive Consumer where
  | takeAll
  | takeN (n : Nat)
  | failAfter (n : Nat) (e : ExaError)

/-- A failure cause: the typed error channel and whether a defect (such as a
rejected release promise) is present. -/
structure FailCause where
  error : Option ExaError
  defect : Bool
deriving DecidableEq

inductive RunExit (α : Type) where
  | success (vs : List α)
  | failure (c : FailCause)

/-- Number of `gen.next()` calls the consumption makes: pulling a value per
demanded element, plus the extra pull that observes `done` when the source
is exhausted first. -/
def drivePulls (len : Nat) : Consumer → Nat
  | Consumer.takeAll => len + 1
  | Consumer.takeN n => if n = 0 then 0 else if n ≤ len then n else len + 1
  | Consumer.failAfter n _ => if n < len then n + 1 else len + 1

/-- Values delivered downstream before consumption ends. -/
def driveValues {α : Type} (items : List α) : Consumer → List α
  | Consumer.takeAll => items
  | Consumer.takeN n => items.take n
  | Consumer.failAfter n _ => items.take (n + 1)

/-- The typed error the downstream raises, if its failure point is reached
before the source is exhausted. -/
def driveError (len : Nat) : Consumer → Option ExaError
  | Consumer.failAfter n e => if n < len then some e else none
  | _ => none

/-- The sequence of operations the adapter performs on the source: the
pulls of consumption, then — whatever way consumption ended — the single
scope-close release. -/
def adapterTrace {α : Type} (items : List α) (c : Consumer) : List AdapterEv :=
  List.replicate (drivePulls items.length c) AdapterEv.pull ++ [AdapterEv.release]

/-- The run's exit: scope close combines the consumption result with the
release outcome; a rejecting release is a defect. -/
def adapterExit {α : Type} (items : List α) (c : Consumer)
    (releaseFails : Bool) : RunExit α :=
  match driveError items.length c, releaseFails with
  | none, false => RunExit.success (driveValues items c)
  | none, true => RunExit.failure ⟨none, true⟩
  | some e, rf => RunExit.failure ⟨some e, rf⟩

/-! ## Error normalization (`toExaError`, src/effect.ts 659-694)

The argument is an arbitrary caught JS value. -/

/-- A caught JS value: a typed `ExaError` instance, or a plain value. -/
inductive JsValue where
  | exaval (e : ExaError)
  | vundef
  | vnull
  | vbool (b : Bool)
  | vnum (n : Int)
  | vstr (s : String)
  | varr (elems : List JsValue)
  | vobj (fields : List (String × JsValue))

def lookupJs : List (String × JsValue) → String → Option JsValue
  | [], _ => none
  | (k, v) :: rest, key => if k = key then some v else lookupJs rest key

def statusField : String := "status"

def statusCodeField : String := "statusCode"

def responseField : String := "response"

def messageField : String := "message"

def timestampField : String := "timestamp"

def pathField : String := "path"

/-- JS field read on a caught value: object fields, the own properties of an
`ExaError` instance, `undefined` (`none`) elsewhere.  (The code only reads
fields after its `e && typeof e === "object"` guards, so the throwing
accesses on `null`/`undefined` are unreachable here.) -/
def getFieldJs : JsValue → String → Option JsValue
  | JsValue.vobj fs, k => lookupJs fs k
  | JsValue.exaval e, k =>
    if k = messageField then some (JsValue.vstr e.message)
    else if k = statusCodeField then some (JsValue.vnum e.statusCode)
    else if k = timestampField then
      match e.timestamp with
      | some t => some (JsValue.vstr t)
      | none => none
    else if k = pathField then
      match e.path with
      | some p => some (JsValue.vstr p)
      | none => none
    else none
  | _, _ => none

/-- Model of `x && typeof x === "object"`. -/
def isObjectJs : JsValue → Bool
  | JsValue.vobj _ => true
  | JsValue.varr _ => true
  | JsValue.exaval _ => true
  | _ => false

def isJsDigit (c : Char) : Bool := '0' ≤ c && c ≤ '9'

def digitsVal (cs : List Char) : Option Int :=
  let ds := cs.takeWhile isJsDigit
  if ds = [] then none
  else some (ds.foldl (fun acc c => acc * 10 + ((c.toNat : Int) - 48)) 0)

/-- Model of JS `parseInt(s, 10)` restricted to what `isNaN` filtering keeps: skip
leading whitespace, optional sign, maximal decimal digit run; no digits
means `NaN` (`none`). -/
def parseInt10 (s : String) : Option Int :=
  let t := s.data.dropWhile isJsWs
  match t with
  | '-' :: rest => (digitsVal rest).map (fun v => -v)
  | '+' :: rest => digitsVal rest
  | _ => digitsVal t

/-- Model of `coerceStatus` (src/effect.ts 668-675): numbers pass through, strings go
through `parseInt(·, 10)` with the `NaN` check, everything else is
`undefined`. -/
def coerceStatus : Option JsValue → Option Int
  | some (JsValue.vnum n) => some n
  | some (JsValue.vstr s) => parseInt10 s
  | _ => none

def joinComma : List String → String
  | [] => ""
  | [x] => x
  | x :: y :: rest => x ++ "," ++ joinComma (y :: rest)

mutual

/-- JS `String(v)`.  Arrays stringify via `join(",")` with `null`/
`undefined` elements as empty strings; plain objects as `"[object
Object]"`; an `Error` instance via its name and message (unreachable from
`toExaError`, which returns `ExaError` instances unchanged). -/
def jsToString : JsValue → String
  | JsValue.exaval e => "Error: " ++ e.message
  | JsValue.vundef => "undefined"
  | JsValue.vnull => "null"
  | JsValue.vbool true => "true"
  | JsValue.vbool false => "false"
  | JsValue.vnum n => toString n
  | JsValue.vstr s => s
  | JsValue.varr xs => joinComma (jsElemStrings xs)
  | JsValue.vobj _ => "[object Object]"

/-- The `Array.prototype.join(",")` element strings. -/
def jsElemStrings : List JsValue → List String
  | [] => []
  | JsValue.vnull :: rest => "" :: jsElemStrings rest
  | JsValue.vundef :: rest => "" :: jsElemStrings rest
  | y :: rest => jsToString y :: jsElemStrings rest

end

/-- Model of `coerceStatus(obj.status) ?? coerceStatus(obj.statusCode)`. -/
def objStatusOf (v : JsValue) : Option Int :=
  match coerceStatus (getFieldJs v statusField) with
  | some s => some s
  | none => coerceStatus (getFieldJs v statusCodeField)

/-- The `obj.response` branch: only entered when `response` is a truthy
object; `coerceStatus(resp.status) ?? coerceStatus(resp.statusCode)`. -/
def respStatusOf (v : JsValue) : Option Int :=
  match getFieldJs v responseField with
  | some r =>
    if isObjectJs r then
      match coerceStatus (getFieldJs r statusField) with
      | some s => some s
      | none => coerceStatus (getFieldJs r statusCodeField)
    else none
  | none => none

/-- The status the code settles on (default 500). -/
def statusOf (v : JsValue) : Int :=
  match objStatusOf v with
  | some s => s
  | none =>
    match respStatusOf v with
    | some s => s
    | none => 500

/-- The `message` starts as `String(e)` and is overwritten by a string-typed
`message` field. -/
def messageOf (v : JsValue) : String :=
  match getFieldJs v messageField with
  | some (JsValue.vstr m) => m
  | _ => jsToString v

/-- Model of `toExaError` (src/effect.ts 659-694). -/
def toExaError : JsValue → ExaError
  | JsValue.exaval e => e
  | v =>
    if isObjectJs v then ⟨messageOf v, statusOf v, none, none⟩
    else ⟨jsToString v, 500, none, none⟩

/-- First defined status in the claim's inspection order, else 500. -/
def firstSome : List (Option Int) → Int
  | [] => 500
  | some s :: _ => s
  | none :: rest => firstSome rest

/-- The claim's nested `response.status` / `response.statusCode` reads. -/
def respField (v : JsValue) (k : String) : Option JsValue :=
  match getFieldJs v responseField with
  | some r => getFieldJs r k
  | none => none

/-- The status as the claim words it: inspect, in order, `status`,
`statusCode`, `response.status`, `response.statusCode`, else 500. -/
def specStatus (v : JsValue) : Int :=
  firstSome
    [coerceStatus (getFieldJs v statusField),
     coerceStatus (getFieldJs v statusCodeField),
     coerceStatus (respField v statusField),
     coerceStatus (respField v statusCodeField)]

/-- The message as the claim words it: the `message` field when it is a
string, else the stringified value. -/
def specMessage (v : JsValue) : String :=
  match getFieldJs v messageField with
  | some (JsValue.vstr m) => m
  | _ => jsToString v

/-! ## Terminal-state poller (research jobs) -/

/-- Modelled from the spec: the job-polling loop `pollUntilFinished` lives
in `src/research/client.ts`, which is not under `src/` (only its Effect
wrapper, src/effect.ts 1137-1140, and its declared return type
`Research & \x7b status: "completed" | "failed" | "canceled" \x7d` are).
Per spec §4.6: fetch the current state; notify the observer; if the status
is terminal — for research jobs the closed set `completed`/`failed`/
`canceled`, and per the use-site policy a `failed`/`canceled` record still
*resolves* — return the record; if non-terminal, compare elapsed time with
the timeout — exceeded fails with a timeout error naming the resource and
the elapsed time — else sleep the interval and repeat.  Successive fetch
results are modelled as a list (`none` = transport failure, list
exhaustion likewise); elapsed time advances by the interval per sleep. -/
structure ResearchRec where
  researchId : String
  status : String
deriving DecidableEq

inductive PollOutcome where
  | finished (r : ResearchRec)
  | timedOut (researchId : String) (elapsedMs : Nat)
  | transportFail
deriving DecidableEq

def isTerminalStatus (s : String) : Bool :=
  s = "completed" || s = "failed" || s = "canceled"

def pollLoop (researchId : String) (timeoutMs pollInterval : Nat) :
    List (Option ResearchRec) → Nat → PollOutcome
  | [], _ => PollOutcome.transportFail
  | f :: rest, elapsed =>
    match f with
    | none => PollOutcome.transportFail
    | some r =>
      if isTerminalStatus r.status then PollOutcome.finished r
      else if elapsed > timeoutMs then PollOutcome.timedOut researchId elapsed
      else
        pollLoop researchId timeoutMs pollInterval rest
          (elapsed + pollInterval)

def pollUntilFinished (researchId : String)
    (fetches : List (Option ResearchRec)) (timeoutMs pollInterval : Nat) :
    PollOutcome :=
  pollLoop researchId timeoutMs pollInterval fetches 0

/-! ## The non-streaming `answer` guard (src/client.ts 548-581) -/

structure AnswerOptionsM where
  stream : Option Bool := none
  text : Option Bool := none
  model : Option String := none
  systemPrompt : Option String := none
  outputSchema : Option Json := none
  userLocation : Option String := none

/-- The body `answer` would POST (the Zod-to-JSON-schema conversion of
`outputSchema` is outside the model; the field is passed through). -/
structure AnswerRequestBody where
  query : String
  stream : Bool
  text : Bool
  model : String
  systemPrompt : Option String
  outputSchema : Option Json
  userLocation : Option String

/-- What one call of `answer` does: throw before any request, or issue the
single POST (the only observable effect on this path). -/
inductive AnswerAction where
  | failed (e : ExaError)
  | post (path : String) (body : AnswerRequestBody)

def answerPath : String := "/answer"

def exaDefaultModel : String := "exa"

def streamAnswerHint : String :=
  "For streaming responses, please use streamAnswer() instead:\n\nfor await (const chunk of exa.streamAnswer(query)) \x7b\n  // Handle chunks\n\x7d"

/-- Model of `answer` (src/client.ts 548-581): the `options?.stream` guard throws
`ExaError(…, HttpStatusCode.BadRequest)` before the request body is even
built; otherwise the POST to `/answer` is issued with `stream: false`. -/
def answer (query : String) (options : Option AnswerOptionsM) : AnswerAction :=
  if (options.bind (fun o => o.stream)).getD false then
    AnswerAction.failed
      ⟨streamAnswerHint, HttpStatusCode.BadRequest, none, none⟩
  else
    AnswerAction.post answerPath
      { query := query
        stream := false
        text := (options.bind (fun o => o.text)).getD false
        model := (options.bind (fun o => o.model)).getD exaDefaultModel
        systemPrompt := options.bind (fun o => o.systemPrompt)
        outputSchema := options.bind (fun o => o.outputSchema)
        userLocation := options.bind (fun o => o.userLocation) }

def boomErr : ExaError := { message := "boom", statusCode := 500 }

def rateStr : String := "429"

def rateMsg : String := "Rate limited"

def rateLimitedVal : JsValue :=
  JsValue.vobj
    [(statusField, JsValue.vstr rateStr), (messageField, JsValue.vstr rateMsg)]

def ridW : String := "research-1"

def recRunningW : ResearchRec := { researchId := ridW, status := "running" }

def recFailedW : ResearchRec := { researchId := ridW, status := "failed" }

def qW : String := "what is ai"

/-! ## Theorems -/

/-! ### Reassembler lemmas -/

theorem splitNl_ne_nil (s : List Char) : splitNl s ≠ [] := by
  cases s with
  | nil => simp [splitNl]
  | cons c rest =>
    simp only [splitNl]
    split
    · simp
    · split <;> simp

theorem consFst_ne_nil (x : List Char) (s : List (List Char)) : consFst x s ≠ [] := by
  cases s <;> simp [consFst]

theorem consFst_nil (s : List (List Char)) (h : s ≠ []) : consFst [] s = s := by
  cases s with
  | nil => exact absurd rfl h
  | cons l ls => simp [consFst]

theorem dropLast_cons_ne (a : List Char) (l : List (List Char)) (h : l ≠ []) :
    (a :: l).dropLast = a :: l.dropLast := by
  cases l with
  | nil => exact absurd rfl h
  | cons x xs => rfl

theorem lastSeg_cons_ne (a : List Char) (l : List (List Char)) (h : l ≠ []) :
    lastSeg (a :: l) = lastSeg l := by
  cases l with
  | nil => exact absurd rfl h
  | cons x xs => rfl

theorem dropLast_append_ne (A B : List (List Char)) (h : B ≠ []) :
    (A ++ B).dropLast = A ++ B.dropLast := by
  induction A with
  | nil => rfl
  | cons a A ih =>
    rw [List.cons_append, dropLast_cons_ne _ _ (by simp [h]), ih, List.cons_append]

theorem lastSeg_append_ne (A B : List (List Char)) (h : B ≠ []) :
    lastSeg (A ++ B) = lastSeg B := by
  induction A with
  | nil => rfl
  | cons a A ih =>
    rw [List.cons_append, lastSeg_cons_ne _ _ (by simp [h]), ih]

/-- Splitting a concatenation: the last (unterminated) segment of `a` is glued
onto the first segment of the split of `b`. -/
theorem splitNl_append (a b : List Char) :
    splitNl (a ++ b) =
      (splitNl a).dropLast ++ consFst (lastSeg (splitNl a)) (splitNl b) := by
  induction a with
  | nil => simp [splitNl, lastSeg, consFst_nil _ (splitNl_ne_nil b)]
  | cons c a ih =>
    by_cases hc : c = '\n'
    · subst hc
      have e1 : splitNl ('\n' :: (a ++ b)) = [] :: splitNl (a ++ b) := by
        simp [splitNl]
      have e2 : splitNl ('\n' :: a) = [] :: splitNl a := by simp [splitNl]
      rw [List.cons_append, e1, e2,
          dropLast_cons_ne _ _ (splitNl_ne_nil a),
          lastSeg_cons_ne _ _ (splitNl_ne_nil a), ih, List.cons_append]
    · have e3 : ∀ x : List Char, splitNl (c :: x) =
          match splitNl x with
          | [] => [[c]]
          | l :: ls => (c :: l) :: ls := by
        intro x
        simp [splitNl, hc]
      rw [List.cons_append, e3 (a ++ b), e3 a]
      cases ha : splitNl a with
      | nil => exact absurd ha (splitNl_ne_nil a)
      | cons l ls =>
        rw [ha] at ih
        rw [ih]
        cases ls with
        | nil =>
          cases hb : splitNl b with
          | nil => exact absurd hb (splitNl_ne_nil b)
          | cons p ps => simp [consFst, lastSeg]
        | cons l2 ls2 =>
          have h2 : (l2 :: ls2 : List (List Char)) ≠ [] := by simp
          simp [dropLast_cons_ne _ _ h2, lastSeg_cons_ne _ _ h2]

/-- A segment without `'\n'` splits into itself alone. -/
theorem splitNl_no_nl (s : List Char) (h : '\n' ∉ s) : splitNl s = [s] := by
  induction s with
  | nil => rfl
  | cons c rest ih =>
    have hc : c ≠ '\n' := fun hcn => h (hcn ▸ List.mem_cons_self c rest)
    have hr : '\n' ∉ rest := fun hm => h (List.mem_cons_of_mem c hm)
    simp only [splitNl, if_neg hc, ih hr]

/-- The trailing (unterminated) segment of a split contains no newline. -/
theorem lastSeg_splitNl_no_nl (s : List Char) : '\n' ∉ lastSeg (splitNl s) := by
  induction s with
  | nil => simp [splitNl, lastSeg]
  | cons c rest ih =>
    by_cases hc : c = '\n'
    · subst hc
      have e1 : splitNl ('\n' :: rest) = [] :: splitNl rest := by simp [splitNl]
      rw [e1, lastSeg_cons_ne _ _ (splitNl_ne_nil rest)]
      exact ih
    · have e3 : splitNl (c :: rest) =
          match splitNl rest with
          | [] => [[c]]
          | l :: ls => (c :: l) :: ls := by
        simp [splitNl, hc]
      rw [e3]
      cases hr : splitNl rest with
      | nil => exact absurd hr (splitNl_ne_nil rest)
      | cons l ls =>
        rw [hr] at ih
        cases ls with
        | nil =>
          show '\n' ∉ lastSeg [c :: l]
          simp only [lastSeg] at ih ⊢
          intro hm
          rcases List.mem_cons.mp hm with h1 | h2
          · exact hc h1.symm
          · exact ih h2
        | cons l2 ls2 =>
          rw [lastSeg_cons_ne _ _ (by simp)] at ih
          show '\n' ∉ lastSeg ((c :: l) :: l2 :: ls2)
          rw [lastSeg_cons_ne _ _ (by simp)]
          exact ih

/-- The reassembler is equivalent to splitting the whole concatenated input:
it emits exactly the complete lines, and buffers the trailing fragment. -/
theorem runReassembler_eq (buf : List Char) (cs : List (List Char))
    (hbuf : '\n' ∉ buf) :
    runReassembler buf cs =
      ((splitNl (buf ++ catChunks cs)).dropLast,
       lastSeg (splitNl (buf ++ catChunks cs))) := by
  induction cs generalizing buf with
  | nil =>
    simp [runReassembler, catChunks, splitNl_no_nl _ hbuf, lastSeg, List.dropLast]
  | cons ch rest ih =>
    simp only [runReassembler, feedChunk, catChunks,
      ih _ (lastSeg_splitNl_no_nl (buf ++ ch))]
    have hmid : splitNl (lastSeg (splitNl (buf ++ ch)) ++ catChunks rest) =
        consFst (lastSeg (splitNl (buf ++ ch))) (splitNl (catChunks rest)) := by
      rw [splitNl_append, splitNl_no_nl _ (lastSeg_splitNl_no_nl (buf ++ ch))]
      simp [lastSeg, List.dropLast]
    have hall : splitNl (buf ++ (ch ++ catChunks rest)) =
        (splitNl (buf ++ ch)).dropLast ++
          consFst (lastSeg (splitNl (buf ++ ch))) (splitNl (catChunks rest)) := by
      rw [← List.append_assoc, splitNl_append (buf ++ ch) (catChunks rest)]
    rw [hmid, hall,
        dropLast_append_ne _ _ (consFst_ne_nil _ _),
        lastSeg_append_ne _ _ (consFst_ne_nil _ _)]

/-! ## Supporting lemmas for the consumer theorems -/

theorem appendEmit_nil (r : EmitResult) : appendEmit r [] = r := by
  cases r <;> simp [appendEmit]

/-- A line the filter skips contributes nothing to the incremental
consumer's output, wherever it occurs. -/
theorem loopEmit_skip (parse : List Char → Option Json) (l : List Char)
    (h : forwardPayload l = none) (A B : List (List Char)) :
    loopEmit parse (A ++ l :: B) = loopEmit parse (A ++ B) := by
  induction A with
  | nil => simp only [List.nil_append, loopEmit, h]
  | cons a A ih =>
    cases hfa : forwardPayload a with
    | none => simp only [List.cons_append, loopEmit, hfa]; exact ih
    | some payload =>
      cases hp : parse payload with
      | none => simp only [List.cons_append, loopEmit, hfa, hp]; exact ih
      | some cd =>
        cases hpc : processChunk cd with
        | error e => simp only [List.cons_append, loopEmit, hfa, hp, hpc]
        | ok ch =>
          have ih' : loopEmit parse (List.append A (l :: B)) =
              loopEmit parse (List.append A B) := ih
          simp only [List.cons_append, loopEmit, hfa, hp, hpc, ih']

/-- A prefix that is empty or newline-terminated leaves an empty trailing
segment. -/
theorem lastSeg_splitNl_end (pre : List Char)
    (h : pre = [] ∨ ∃ A, pre = A ++ ['\n']) : lastSeg (splitNl pre) = [] := by
  rcases h with h | ⟨A, h⟩
  · subst h; rfl
  · subst h
    have e : splitNl ['\n'] = [[], []] := by simp [splitNl]
    rw [splitNl_append, e, lastSeg_append_ne _ _ (consFst_ne_nil _ _)]
    simp [consFst, lastSeg]

/-- Splitting after a line-complete prefix decomposes cleanly. -/
theorem splitNl_decomp (pre tail : List Char)
    (hpre : pre = [] ∨ ∃ A, pre = A ++ ['\n']) :
    splitNl (pre ++ tail) = (splitNl pre).dropLast ++ splitNl tail := by
  rw [splitNl_append, lastSeg_splitNl_end pre hpre,
      consFst_nil _ (splitNl_ne_nil tail)]

/-- C2: for every pair of chunkings with the same concatenation, the line
reassembler produces the identical sequence of complete decoded lines (and
the identical trailing buffer): reassembly is chunk-boundary-invariant, no
line is lost or duplicated across chunk boundaries. -/
theorem reassembler_chunk_invariant_thm (cs₁ cs₂ : List (List Char))
    (h : catChunks cs₁ = catChunks cs₂) :
    runReassembler [] cs₁ = runReassembler [] cs₂ := by
  rw [runReassembler_eq _ _ (List.not_mem_nil '\n'),
      runReassembler_eq _ _ (List.not_mem_nil '\n'), h]

/-- C2 witness: byte-at-a-time chunking versus one whole chunk of the same
transcript give the same reassembler output. -/
theorem reassembler_chunk_invariant_witness :
    catChunks [['d'], ['a'], ['t'], ['a'], [':'], [' '], ['x'], ['\n'], ['y']] =
      catChunks ["data: x\ny".toList] ∧
    runReassembler []
        [['d'], ['a'], ['t'], ['a'], [':'], [' '], ['x'], ['\n'], ['y']] =
      runReassembler [] ["data: x\ny".toList] :=
  ⟨rfl, reassembler_chunk_invariant_thm _ _ rfl⟩

/-- The incremental consumer's output as a function of the concatenated
transcript: loop over the complete lines, one flush of the trailing
fragment. -/
theorem streamAnswerRun_eq (parse : List Char → Option Json)
    (cs : List (List Char)) :
    streamAnswerRun parse cs =
      appendEmit (loopEmit parse (splitNl (catChunks cs)).dropLast)
        (flushEmit parse (lastSeg (splitNl (catChunks cs)))) := by
  show appendEmit (loopEmit parse (runReassembler [] cs).1)
      (flushEmit parse (runReassembler [] cs).2) = _
  rw [runReassembler_eq _ _ (List.not_mem_nil '\n'), List.nil_append]

/-- The blocking consumer's outcome as a function of the concatenated
transcript: the switch loop over the complete lines; the trailing fragment
is never consulted. -/
theorem parseSSEModel_eq (parse : List Char → Option Json)
    (cs : List (List Char)) :
    parseSSEModel parse cs =
      sseLoop parse (splitNl (catChunks cs)).dropLast := by
  show sseLoop parse (runReassembler [] cs).1 = _
  rw [runReassembler_eq _ _ (List.not_mem_nil '\n'), List.nil_append]

/-- C7: a `data: [DONE]` line is a pure no-op marker for the incremental
consumer: whatever the chunking of the byte stream, and whether the line is
newline-terminated or is the unterminated final line, the emitted Answer
Chunk sequence is identical to that of the same transcript with the line
removed — it never appears as, or contributes to, an emitted chunk. -/
theorem done_line_no_op (parse : List Char → Option Json)
    (cs₁ cs₂ : List (List Char)) (pre post : List Char)
    (hpre : pre = [] ∨ ∃ A, pre = A ++ ['\n'])
    (hsplit :
      (catChunks cs₁ = pre ++ ("data: [DONE]\n".toList ++ post) ∧
        catChunks cs₂ = pre ++ post) ∨
      (catChunks cs₁ = pre ++ "data: [DONE]".toList ∧ catChunks cs₂ = pre)) :
    streamAnswerRun parse cs₁ = streamAnswerRun parse cs₂ := by
  have hDs : forwardPayload ("data: [DONE]".toList) = none := by decide
  rcases hsplit with ⟨h1, h2⟩ | ⟨h1, h2⟩
  · rw [streamAnswerRun_eq, streamAnswerRun_eq, h1, h2,
        splitNl_decomp _ _ hpre, splitNl_decomp _ _ hpre]
    have hdl : splitNl ("data: [DONE]\n".toList ++ post) =
        "data: [DONE]".toList :: splitNl post := by
      rw [show ("data: [DONE]\n".toList : List Char) =
            "data: [DONE]".toList ++ ['\n'] from rfl,
          List.append_assoc, splitNl_append]
      rw [show splitNl ("data: [DONE]".toList) = ["data: [DONE]".toList]
            from rfl]
      have hnp : splitNl ('\n' :: post) = [] :: splitNl post := by
        simp [splitNl]
      simp [hnp, lastSeg, consFst]
    rw [hdl,
        dropLast_append_ne _ _ (by simp),
        dropLast_append_ne _ _ (splitNl_ne_nil post),
        dropLast_cons_ne _ _ (splitNl_ne_nil post),
        lastSeg_append_ne _ _ (by simp),
        lastSeg_append_ne _ _ (splitNl_ne_nil post),
        lastSeg_cons_ne _ _ (splitNl_ne_nil post)]
    have hskip := loopEmit_skip parse _ hDs (splitNl pre).dropLast
      (splitNl post).dropLast
    rw [hskip]
  · rw [streamAnswerRun_eq, streamAnswerRun_eq, h1, h2,
        splitNl_decomp _ _ hpre,
        show splitNl ("data: [DONE]".toList) = ["data: [DONE]".toList]
          from rfl]
    rw [List.dropLast_concat, lastSeg_append_ne _ _ (by simp),
        lastSeg_splitNl_end _ hpre]
    have hf1 : flushEmit parse ("data: [DONE]".toList) = [] := by
      show (match forwardPayload ("data: [DONE]".toList) with
            | none => ([] : List AnswerChunk)
            | some leftover =>
              match parse leftover with
              | none => []
              | some chunkData =>
                match processChunk chunkData with
                | Except.error _ => []
                | Except.ok ch => if emitP ch then [ch] else []) = []
      rw [hDs]
    have hf2 : flushEmit parse [] = [] := rfl
    rw [show lastSeg [("data: [DONE]".toList : List Char)] =
          "data: [DONE]".toList from rfl, hf1, hf2]

/-- C7 witness at a concrete transcript: removing the embedded
`data: [DONE]` line does not change the emitted sequence. -/
theorem done_line_no_op_witness :
    streamAnswerRun (fun _ => none) ["data: a\ndata: [DONE]\nx".toList] =
      streamAnswerRun (fun _ => none) ["data: a\nx".toList] :=
  done_line_no_op (fun _ => none) _ _ ("data: a\n".toList) ['x']
    (Or.inr ⟨"data: a".toList, rfl⟩)
    (Or.inl ⟨by simp [catChunks], by simp [catChunks]⟩)

/-- C5 (amended): when the stream ends while the buffer holds a complete but
unterminated `data: ` line, the incremental consumer still processes that
line — the buffer is flushed exactly once after the source is exhausted —
but the blocking consumer does not: its outcome is computed from the
complete lines alone and the trailing line is ignored. -/
theorem final_line_flush (parse : List Char → Option Json)
    (cs : List (List Char)) (pre payload : List Char)
    (hpre : pre = [] ∨ ∃ A, pre = A ++ ['\n'])
    (hnl : '\n' ∉ payload)
    (hcat : catChunks cs = pre ++ (dataMark ++ payload)) :
    streamAnswerRun parse cs =
      appendEmit (loopEmit parse (splitNl pre).dropLast)
        (flushEmit parse (dataMark ++ payload)) ∧
    parseSSEModel parse cs = sseLoop parse (splitNl pre).dropLast := by
  have hnl2 : '\n' ∉ dataMark ++ payload := by
    intro hm
    rcases List.mem_append.mp hm with h | h
    · revert h
      decide
    · exact hnl h
  have hsp : splitNl (catChunks cs) =
      (splitNl pre).dropLast ++ [dataMark ++ payload] := by
    rw [hcat, splitNl_decomp _ _ hpre, splitNl_no_nl _ hnl2]
  constructor
  · rw [streamAnswerRun_eq, hsp, List.dropLast_concat,
        lastSeg_append_ne _ _ (by simp),
        show lastSeg [dataMark ++ payload] = dataMark ++ payload from rfl]
  · rw [parseSSEModel_eq, hsp, List.dropLast_concat]

/-- C5 counterexample: a stream that ends with a complete `data:
{"tag":"complete","data":5}` line with no trailing newline.  The blocking
consumer does NOT process it — it rejects with the protocol error — although
the very same transcript with a trailing newline resolves with `5`.  The
claim's "in both SSE consumers" fails for `parseSSEStream`. -/
theorem final_line_flush_counterexample :
    parseSSEModel p5 [dataMark ++ compPayload] =
      SSEOutcome.protocolError HttpStatusCode.InternalServerError ∧
    parseSSEModel p5 [dataMark ++ compPayload ++ ['\n']] =
      SSEOutcome.success (some (Json.num 5)) ∧
    streamAnswerRun p5 [dataMark ++ compPayload] =
      streamAnswerRun p5 [dataMark ++ compPayload ++ ['\n']] :=
  ⟨rfl, rfl, rfl⟩

/-- C5 witness: the amended theorem applied to the counterexample stream. -/
theorem final_line_flush_witness :
    streamAnswerRun p5 [dataMark ++ compPayload] =
      appendEmit (loopEmit p5 (splitNl []).dropLast)
        (flushEmit p5 (dataMark ++ compPayload)) ∧
    parseSSEModel p5 [dataMark ++ compPayload] =
      sseLoop p5 (splitNl []).dropLast :=
  final_line_flush p5 [dataMark ++ compPayload] [] compPayload
    (Or.inl rfl) (by decide) (by simp [catChunks])

theorem jsGetField_ne_null (j : Json) (k : List Char) (h : j ≠ Json.null) :
    jsGetField j k = Except.ok (jsGetD j k) := by
  cases j
  · exact absurd rfl h
  all_goals rfl

/-- The switch loop realizes the verdict of the first terminal event, as
long as no forwarded line parsed to JSON `null` (where `chunk.tag` would
throw). -/
theorem sseLoop_eq_verdict (parse : List Char → Option Json)
    (lines : List (List Char))
    (h : Json.null ∉ lines.filterMap (lineEvent parse)) :
    sseLoop parse lines = sseVerdict (lines.filterMap (lineEvent parse)) := by
  induction lines with
  | nil => rfl
  | cons line rest ih =>
    cases hf : forwardPayload line with
    | none =>
      have hl : lineEvent parse line = none := by simp [lineEvent, hf]
      rw [List.filterMap_cons_none hl] at h ⊢
      simp only [sseLoop, hf]
      exact ih h
    | some payload =>
      cases hp : parse payload with
      | none =>
        have hl : lineEvent parse line = none := by simp [lineEvent, hf, hp]
        rw [List.filterMap_cons_none hl] at h ⊢
        simp only [sseLoop, hf, hp]
        exact ih h
      | some chunk =>
        have hl : lineEvent parse line = some chunk := by
          simp [lineEvent, hf, hp]
        rw [List.filterMap_cons_some hl] at h ⊢
        have hchunk : chunk ≠ Json.null := by
          intro h0
          exact h (h0 ▸ List.mem_cons_self _ _)
        have hrest : Json.null ∉ rest.filterMap (lineEvent parse) :=
          fun hm => h (List.mem_cons_of_mem _ hm)
        simp only [sseLoop, hf, hp, jsGetField_ne_null _ _ hchunk]
        cases ht : jsGetD chunk tagKey with
        | none =>
          have hts : tagStringOf chunk = none := by simp [tagStringOf, ht]
          have hterm : isTerminalEv chunk = false := by
            simp [isTerminalEv, hts]
          rw [show sseVerdict (chunk :: rest.filterMap (lineEvent parse)) =
                sseVerdict (rest.filterMap (lineEvent parse)) from by
              unfold sseVerdict
              rw [List.find?_cons_of_neg _ (by simp [hterm])]]
          exact ih hrest
        | some v =>
          cases v
          case str t =>
            have hts : tagStringOf chunk = some t := by
              simp [tagStringOf, ht]
            by_cases hcomp : t = completeTag
            · have hterm : isTerminalEv chunk = true := by
                simp [isTerminalEv, hts, hcomp]
              unfold sseVerdict
              rw [List.find?_cons_of_pos _ hterm]
              simp [hts, hcomp]
            · by_cases herr : t = errorTag
              · have hterm : isTerminalEv chunk = true := by
                  simp [isTerminalEv, hts, herr]
                have hne : tagStringOf chunk ≠ some completeTag := by
                  rw [hts, herr]
                  decide
                unfold sseVerdict
                rw [List.find?_cons_of_pos _ hterm]
                simp [hts, hcomp, herr, hne]
              · have hterm : isTerminalEv chunk = false := by
                  simp [isTerminalEv, hts, hcomp, herr]
                rw [show sseVerdict (chunk :: rest.filterMap (lineEvent parse)) =
                      sseVerdict (rest.filterMap (lineEvent parse)) from by
                    unfold sseVerdict
                    rw [List.find?_cons_of_neg _ (by simp [hterm])]]
                simp only [hcomp, herr, if_false, if_neg, ite_false]
                simpa using ih hrest
          all_goals
            (have hts : tagStringOf chunk = none := by
              simp [tagStringOf, ht]
             have hterm : isTerminalEv chunk = false := by
              simp [isTerminalEv, hts]
             rw [show sseVerdict (chunk :: rest.filterMap (lineEvent parse)) =
                  sseVerdict (rest.filterMap (lineEvent parse)) from by
                unfold sseVerdict
                rw [List.find?_cons_of_neg _ (by simp [hterm])]]
             simpa using ih hrest)

/-- C1 (amended): provided no forwarded line parses to JSON `null` (on such
a line `chunk.tag` throws a `TypeError`, which the promise re-raises), the
blocking consumer settles exactly once and in exactly one of the three
claimed ways, decided by the first terminal event: `data` of a first
`"complete"` event, the `error.message`-with-default rejection at the fixed
internal-error code for a first `"error"` event, and the protocol-error
rejection when the stream ends with no terminal event seen. -/
theorem parseSSE_settles (parse : List Char → Option Json)
    (cs : List (List Char))
    (h : Json.null ∉ ((runReassembler [] cs).1.filterMap (lineEvent parse))) :
    parseSSEModel parse cs =
      sseVerdict ((runReassembler [] cs).1.filterMap (lineEvent parse)) ∧
    parseSSEModel parse cs ≠ SSEOutcome.thrown := by
  have h1 := sseLoop_eq_verdict parse _ h
  refine ⟨h1, ?_⟩
  rw [show parseSSEModel parse cs = sseLoop parse (runReassembler [] cs).1
        from rfl, h1]
  unfold sseVerdict
  split
  · split <;> simp
  · simp

/-- C1 counterexample: fed the single line `data: null` (well-formed JSON),
the blocking consumer settles in none of the three claimed ways — `null` is
forwarded, `JSON.parse` succeeds, and `chunk.tag` throws a `TypeError` that
the catch handler passes to `reject`, so the rejection is neither the
`error.message` rejection nor the protocol error. -/
theorem parseSSE_settles_counterexample :
    ¬ settlesPerClaim (parseSSEModel pNull ["data: null\n".toList]) := by
  intro hcl
  have e : parseSSEModel pNull ["data: null\n".toList] = SSEOutcome.thrown :=
    rfl
  rw [e] at hcl
  rcases hcl with ⟨d, hd⟩ | ⟨m, hm⟩ | hp
  · exact SSEOutcome.noConfusion hd
  · exact SSEOutcome.noConfusion hm
  · exact SSEOutcome.noConfusion hp

/-- C1 witness: the amended theorem at a concrete complete-event stream. -/
theorem parseSSE_settles_witness :
    parseSSEModel p5 [dataMark ++ compPayload ++ ['\n']] =
      sseVerdict
        (((runReassembler [] [dataMark ++ compPayload ++ ['\n']]).1).filterMap
          (lineEvent p5)) ∧
    parseSSEModel p5 [dataMark ++ compPayload ++ ['\n']] ≠
      SSEOutcome.thrown := by
  have e : ((runReassembler [] [dataMark ++ compPayload ++ ['\n']]).1).filterMap
      (lineEvent p5) = [compEvent] := rfl
  have h : Json.null ∉
      ((runReassembler [] [dataMark ++ compPayload ++ ['\n']]).1).filterMap
        (lineEvent p5) := by
    rw [e]
    simp [compEvent]
  exact parseSSE_settles p5 _ h

theorem emittedOf_consEmit (ch : AnswerChunk) (r : EmitResult) :
    emittedOf (consEmit ch r) = ch :: emittedOf r := by
  cases r <;> rfl

/-- Every chunk the in-loop processing emits passed the yield filter. -/
theorem loopEmit_filter (parse : List Char → Option Json)
    (lines : List (List Char)) :
    ∀ ch ∈ emittedOf (loopEmit parse lines), emitP ch = true := by
  induction lines with
  | nil =>
    intro ch hm
    simp [loopEmit, emittedOf] at hm
  | cons line rest ih =>
    intro ch hm
    cases hf : forwardPayload line with
    | none =>
      simp only [loopEmit, hf] at hm
      exact ih ch hm
    | some payload =>
      cases hp : parse payload with
      | none =>
        simp only [loopEmit, hf, hp] at hm
        exact ih ch hm
      | some cd =>
        cases hpc : processChunk cd with
        | error e =>
          simp only [loopEmit, hf, hp, hpc, emittedOf] at hm
          exact absurd hm (List.not_mem_nil ch)
        | ok c =>
          simp only [loopEmit, hf, hp, hpc] at hm
          by_cases he : emitP c = true
          · rw [if_pos he, emittedOf_consEmit] at hm
            rcases List.mem_cons.mp hm with h1 | h2
            · rw [h1]
              exact he
            · exact ih ch h2
          · rw [if_neg he] at hm
            exact ih ch hm

/-- Every chunk the flush emits passed the yield filter. -/
theorem flushEmit_filter (parse : List Char → Option Json) (buf : List Char) :
    ∀ ch ∈ flushEmit parse buf, emitP ch = true := by
  intro ch hm
  unfold flushEmit at hm
  split at hm
  · exact absurd hm (List.not_mem_nil ch)
  · split at hm
    · exact absurd hm (List.not_mem_nil ch)
    · split at hm
      · exact absurd hm (List.not_mem_nil ch)
      · split at hm
        · rcases List.mem_cons.mp hm with h1 | h2
          · rw [h1]
            assumption
          · exact absurd h2 (List.not_mem_nil ch)
        · exact absurd hm (List.not_mem_nil ch)

theorem emittedOf_appendEmit (r : EmitResult) (extra : List AnswerChunk) :
    ∀ ch ∈ emittedOf (appendEmit r extra),
      ch ∈ emittedOf r ∨ ch ∈ extra := by
  intro ch hm
  cases r with
  | ok l =>
    exact List.mem_append.mp hm
  | thrown l =>
    exact Or.inl hm

/-- `processChunk` on a non-`null` payload: citations may throw, content
never does. -/
theorem processChunk_ne_null (cd : Json) (h : cd ≠ Json.null) :
    processChunk cd =
      match citationsOf cd with
      | Except.error e => Except.error e
      | Except.ok cits => Except.ok ⟨contentOf cd, cits⟩ := by
  cases cd
  · exact absurd rfl h
  all_goals rfl

/-- C4 (corrected): for a parsed payload, a citations field equal to the
string `"null"` yields an Answer Chunk with no citations field, and a
citations field equal to `[]` yields a defined-but-empty citations list —
but such a chunk is NOT filtered out: a defined citations array (empty
included) passes the `chunk.content || chunk.citations` test, so the
incremental consumer emits it even when content is absent.  What does hold
is that every emitted chunk passes that truthiness filter. -/
theorem citations_null_vs_empty (chunkData : Json) (h : chunkData ≠ Json.null) :
    (jsGetD chunkData citationsKey = some (Json.str nullLit) →
      processChunk chunkData = Except.ok ⟨contentOf chunkData, none⟩) ∧
    (jsGetD chunkData citationsKey = some (Json.arr []) →
      processChunk chunkData = Except.ok ⟨contentOf chunkData, some []⟩ ∧
      emitP ⟨contentOf chunkData, some []⟩ = true) ∧
    (∀ parse cs ch, ch ∈ emittedOf (streamAnswerRun parse cs) →
      emitP ch = true) := by
  refine ⟨?_, ?_, ?_⟩
  · intro hcit
    rw [processChunk_ne_null _ h]
    have hc : citationsOf chunkData = Except.ok none := by
      unfold citationsOf
      rw [hcit]
      rfl
    rw [hc]
  · intro hcit
    have hc : citationsOf chunkData = Except.ok (some []) := by
      unfold citationsOf
      rw [hcit]
      rfl
    refine ⟨?_, ?_⟩
    · rw [processChunk_ne_null _ h, hc]
    · simp [emitP]
  · intro parse cs ch hm
    rcases emittedOf_appendEmit (loopEmit parse (runReassembler [] cs).1)
        (flushEmit parse (runReassembler [] cs).2) ch hm with h1 | h2
    · exact loopEmit_filter parse _ ch h1
    · exact flushEmit_filter parse _ ch h2

/-- C4 counterexample: fed `data: {"citations":[]}`, the incremental
consumer DOES yield the chunk — with undefined content and an empty
citations list — because the empty array is truthy in JS.  The claim's
"still filtered out when content is also absent" and "never emits an Answer
Chunk with both fields empty" fail on the code. -/
theorem citations_null_vs_empty_counterexample :
    streamAnswerRun pEmptyCits [dataMark ++ citPayload ++ ['\n']] =
      EmitResult.ok [⟨none, some []⟩] ∧
    emitP ⟨none, some []⟩ = true :=
  ⟨rfl, rfl⟩

/-- C4 witness: the amended theorem at the two concrete payload shapes. -/
theorem citations_null_vs_empty_witness :
    processChunk (Json.obj [(citationsKey, Json.str nullLit)]) =
      Except.ok ⟨none, none⟩ ∧
    processChunk (Json.obj [(citationsKey, Json.arr [])]) =
      Except.ok ⟨none, some []⟩ ∧
    emitP ⟨none, some []⟩ = true := by
  have h1 := (citations_null_vs_empty
    (Json.obj [(citationsKey, Json.str nullLit)]) (by simp)).1 rfl
  have h2 := (citations_null_vs_empty
    (Json.obj [(citationsKey, Json.arr [])]) (by simp)).2.1 rfl
  exact ⟨h1, h2.1, h2.2⟩

/-! ## Theorems for the adapter (C3, C6) -/

/-- Splitting `replicate k pull ++ [release]` at a `release` leaves nothing
after it. -/
theorem trace_split_release (k : Nat) (pre post : List AdapterEv)
    (h : List.replicate k AdapterEv.pull ++ [AdapterEv.release] =
      pre ++ AdapterEv.release :: post) : post = [] := by
  induction k generalizing pre with
  | zero =>
    cases pre with
    | nil =>
      simp only [List.replicate_zero, List.nil_append] at h
      injection h with h1 h2
      exact h2.symm
    | cons p pre' =>
      simp only [List.replicate_zero, List.nil_append] at h
      injection h with h1 h2
      simp at h2
  | succ k ih =>
    cases pre with
    | nil =>
      simp only [List.replicate_succ, List.cons_append, List.nil_append] at h
      injection h with h1 h2
      exact AdapterEv.noConfusion h1
    | cons p pre' =>
      simp only [List.replicate_succ, List.cons_append] at h
      injection h with h1 h2
      exact ih pre' h2

/-- C3: for every adapted stream and every consumer behavior — normal
exhaustion, early termination after `n` of N items (scope teardown behaves
the same), or downstream failure — the source's release operation runs
exactly once and no pull follows it; taking exactly 1 of N ≥ 1 available
items makes exactly one pull. -/
theorem adapter_release_once {α : Type} (items : List α) (c : Consumer) :
    (adapterTrace items c).count AdapterEv.release = 1 ∧
    (∀ pre post, adapterTrace items c = pre ++ AdapterEv.release :: post →
      AdapterEv.pull ∉ post) ∧
    (items ≠ [] →
      (adapterTrace items (Consumer.takeN 1)).count AdapterEv.pull = 1) := by
  refine ⟨?_, ?_, ?_⟩
  · unfold adapterTrace
    rw [List.count_append]
    simp [List.count_replicate]
  · intro pre post h
    rw [trace_split_release _ _ _ h]
    simp
  · intro hne
    have hlen : 1 ≤ items.length := by
      cases items with
      | nil => exact absurd rfl hne
      | cons x xs => simp
    have hd : drivePulls items.length (Consumer.takeN 1) = 1 := by
      simp [drivePulls, hlen]
    unfold adapterTrace
    rw [hd, List.count_append]
    simp [List.count_replicate]

/-- C3 witness: early termination after exactly 1 of 3 items — one release,
one pull. -/
theorem adapter_release_once_witness :
    (adapterTrace ([1, 2, 3] : List Nat) (Consumer.takeN 1)).count
        AdapterEv.release = 1 ∧
    (adapterTrace ([1, 2, 3] : List Nat) (Consumer.takeN 1)).count
        AdapterEv.pull = 1 := by
  have h := adapter_release_once ([1, 2, 3] : List Nat) (Consumer.takeN 1)
  exact ⟨h.1, h.2.2 (by simp)⟩

/-- C6 (corrected): a failing release is not suppressed.  `gen.return` runs
inside `Effect.promise`, whose rejection is raised as a defect: it is
combined with — and never replaces — a typed error already propagating
downstream, but it does turn an otherwise-successful run (normal or
early-cancelled) into a defect failure. -/
theorem release_failure_defect {α : Type} (items : List α) (n : Nat)
    (e : ExaError) (h : n < items.length) :
    adapterExit items (Consumer.failAfter n e) true =
      RunExit.failure ⟨some e, true⟩ ∧
    adapterExit items (Consumer.failAfter n e) false =
      RunExit.failure ⟨some e, false⟩ ∧
    (∀ k, adapterExit items (Consumer.takeN k) true =
      RunExit.failure ⟨none, true⟩) := by
  refine ⟨?_, ?_, fun k => rfl⟩
  · simp [adapterExit, driveError, h]
  · simp [adapterExit, driveError, h]

/-- C6 counterexample: three items, a consumer taking exactly one, release
promise rejecting — the otherwise-successful early cancellation becomes a
defect failure instead of staying a success, so the release failure was
not suppressed. -/
theorem release_failure_defect_counterexample :
    adapterExit ([1, 2, 3] : List Nat) (Consumer.takeN 1) true =
      RunExit.failure ⟨none, true⟩ ∧
    adapterExit ([1, 2, 3] : List Nat) (Consumer.takeN 1) false =
      RunExit.success [1] :=
  ⟨rfl, rfl⟩

/-- C6 witness: the amended theorem at a concrete failing run. -/
theorem release_failure_defect_witness :
    adapterExit ([1, 2] : List Nat) (Consumer.failAfter 0 boomErr) true =
      RunExit.failure ⟨some boomErr, true⟩ :=
  (release_failure_defect ([1, 2] : List Nat) 0 boomErr (by decide)).1

/-! ## Theorems for error normalization (C8) -/

theorem getFieldJs_not_obj (r : JsValue) (h : isObjectJs r = false)
    (k : String) : getFieldJs r k = none := by
  cases r <;> first | rfl | (exfalso; simp [isObjectJs] at h)

/-- The code's nested status selection equals the claim's flat in-order
inspection. -/
theorem coerceStatus_none : coerceStatus none = none := rfl

theorem statusOf_eq_spec (v : JsValue) : statusOf v = specStatus v := by
  cases h1 : coerceStatus (getFieldJs v statusField) with
  | some s => simp [statusOf, objStatusOf, specStatus, firstSome, h1]
  | none =>
    cases h2 : coerceStatus (getFieldJs v statusCodeField) with
    | some s => simp [statusOf, objStatusOf, specStatus, firstSome, h1, h2]
    | none =>
      cases h3 : getFieldJs v responseField with
      | none =>
        simp [statusOf, objStatusOf, respStatusOf, specStatus, respField,
          firstSome, h1, h2, h3, coerceStatus_none]
      | some r =>
        by_cases h4 : isObjectJs r = true
        · cases h5 : coerceStatus (getFieldJs r statusField) with
          | some s =>
            simp [statusOf, objStatusOf, respStatusOf, specStatus, respField,
              firstSome, h1, h2, h3, h4, h5]
          | none =>
            cases h6 : coerceStatus (getFieldJs r statusCodeField) with
            | some s =>
              simp [statusOf, objStatusOf, respStatusOf, specStatus,
                respField, firstSome, h1, h2, h3, h4, h5, h6]
            | none =>
              simp [statusOf, objStatusOf, respStatusOf, specStatus,
                respField, firstSome, h1, h2, h3, h4, h5, h6]
        · have h4' : isObjectJs r = false := by
            revert h4
            cases isObjectJs r <;> simp
          simp [statusOf, objStatusOf, respStatusOf, specStatus, respField,
            firstSome, h1, h2, h3, h4', getFieldJs_not_obj r h4',
            coerceStatus_none]

/-- C8: a value that is already an `ExaError` is returned unchanged; any
other caught value is normalized to an `ExaError` whose status inspects, in
order, `status`, `statusCode`, `response.status`, `response.statusCode`,
defaulting to 500, and whose message is the string-typed `message` field
else the stringified value. -/
theorem toExaError_spec :
    (∀ e : ExaError, toExaError (JsValue.exaval e) = e) ∧
    (∀ v : JsValue, (∀ e, v ≠ JsValue.exaval e) →
      toExaError v = ⟨specMessage v, specStatus v, none, none⟩) := by
  constructor
  · intro e
    rfl
  · intro v hv
    cases v
    case exaval e => exact absurd rfl (hv e)
    case vobj fs =>
      show (⟨messageOf (JsValue.vobj fs), statusOf (JsValue.vobj fs), none,
          none⟩ : ExaError) = _
      rw [statusOf_eq_spec]
      rfl
    case varr xs =>
      show (⟨messageOf (JsValue.varr xs), statusOf (JsValue.varr xs), none,
          none⟩ : ExaError) = _
      rw [statusOf_eq_spec]
      rfl
    all_goals rfl

/-- C8 witness: `{status: "429", message: "Rate limited"}` normalizes to an
`ExaError` with status 429 (string coerced via `parseInt`) and the message
field. -/
theorem toExaError_spec_witness :
    toExaError rateLimitedVal = ⟨rateMsg, 429, none, none⟩ := by
  have h := toExaError_spec.2 rateLimitedVal
    (fun e h0 => JsValue.noConfusion h0)
  exact h

/-! ## Theorems for the poller (C9) and the answer guard (C10) -/

/-- The poll loop reaches the first terminal record and returns it,
provided the preceding non-terminal observations stayed inside the
timeout. -/
theorem pollLoop_reach (researchId : String) (timeoutMs pollInterval : Nat)
    (pre : List ResearchRec) (r : ResearchRec)
    (rest : List (Option ResearchRec)) :
    ∀ elapsed : Nat,
      (∀ x ∈ pre, isTerminalStatus x.status = false) →
      (∀ i < pre.length, ¬ (elapsed + i * pollInterval > timeoutMs)) →
      isTerminalStatus r.status = true →
      pollLoop researchId timeoutMs pollInterval
          (pre.map some ++ some r :: rest) elapsed =
        PollOutcome.finished r := by
  induction pre with
  | nil =>
    intro elapsed _ _ hterm
    simp only [List.map_nil, List.nil_append, pollLoop]
    rw [if_pos hterm]
  | cons x pre' ih =>
    intro elapsed hpre htime hterm
    have hx : ¬ (isTerminalStatus x.status = true) := by
      rw [hpre x (List.mem_cons_self x pre')]
      simp
    have ht0 : ¬ (elapsed > timeoutMs) := by
      have h0 := htime 0 (by simp)
      simpa using h0
    simp only [List.map_cons, List.cons_append, pollLoop]
    rw [if_neg hx, if_neg ht0]
    exact ih (elapsed + pollInterval)
      (fun y hy => hpre y (List.mem_cons_of_mem x hy))
      (fun i hi => by
        have h2 := htime (i + 1) (by simpa using Nat.succ_lt_succ hi)
        have e : elapsed + pollInterval + i * pollInterval =
            elapsed + (i + 1) * pollInterval := by ring
        rw [e]
        exact h2)
      hterm

/-- C9: when polling observes a terminal `"failed"` or `"canceled"` status
(after any number of in-time non-terminal observations),
`pollUntilFinished` resolves with that record — callers inspect its status
field — rather than rejecting; rejection arises only from the timeout and
transport-failure paths of the loop. -/
theorem pollUntilFinished_failed_resolves (researchId : String)
    (pre : List ResearchRec) (r : ResearchRec)
    (rest : List (Option ResearchRec)) (timeoutMs pollInterval : Nat)
    (hpre : ∀ x ∈ pre, isTerminalStatus x.status = false)
    (htime : ∀ i < pre.length, ¬ (i * pollInterval > timeoutMs))
    (hr : r.status = "failed" ∨ r.status = "canceled") :
    pollUntilFinished researchId (pre.map some ++ some r :: rest) timeoutMs
        pollInterval = PollOutcome.finished r := by
  have hterm : isTerminalStatus r.status = true := by
    rcases hr with h | h <;> rw [h] <;> rfl
  exact pollLoop_reach researchId timeoutMs pollInterval pre r rest 0 hpre
    (fun i hi => by simpa using htime i hi) hterm

/-- C9 witness: a `[running, failed]` observation sequence resolves with
the failed record. -/
theorem pollUntilFinished_failed_resolves_witness :
    pollUntilFinished ridW [some recRunningW, some recFailedW] 1000 10 =
      PollOutcome.finished recFailedW :=
  pollUntilFinished_failed_resolves ridW [recRunningW] recFailedW [] 1000 10
    (fun x hx => by rw [List.mem_singleton.mp hx]; rfl)
    (fun i hi => by
      simp only [List.length_singleton] at hi
      omega)
    (Or.inl rfl)

/-- C10: when `options.stream` is truthy, `answer` fails immediately with a
typed `ExaError` carrying the BadRequest (400) status and the
use-`streamAnswer` message, and issues no POST — the guard precedes the
request and every other effect of the call. -/
theorem answer_stream_guard (query : String) (o : AnswerOptionsM)
    (h : o.stream = some true) :
    answer query (some o) =
      AnswerAction.failed
        ⟨streamAnswerHint, HttpStatusCode.BadRequest, none, none⟩ ∧
    ∀ path body, answer query (some o) ≠ AnswerAction.post path body := by
  have e : answer query (some o) =
      AnswerAction.failed
        ⟨streamAnswerHint, HttpStatusCode.BadRequest, none, none⟩ := by
    unfold answer
    rw [show ((some o).bind fun oo => oo.stream) = some true from h]
    rfl
  exact ⟨e, fun path body hp => by
    rw [e] at hp
    exact AnswerAction.noConfusion hp⟩

/-- C10 witness: the guard at a concrete query and options value. -/
theorem answer_stream_guard_witness :
    answer qW (some { stream := some true }) =
      AnswerAction.failed
        ⟨streamAnswerHint, HttpStatusCode.BadRequest, none, none⟩ :=
  (answer_stream_guard qW { stream := some true } rfl).1
